import Mathlib

/-!
Verification of the Twilio MCP message server (`server.ts`, enhanced-logging
variant) against its natural-language specification.

The development shallowly embeds the TypeScript source:

* `TwilioConfig`, `ParamValue`, `JVal` model the configuration record, the
  `Record<string, any>` request body, and parsed JSON values respectively.
  Config fields are `Option String` so that the JavaScript truthiness check
  `!config.apiKey` (true for `undefined`, `null` and `""`) can be modelled
  faithfully by `falsyStr`.
* `bodyPairs` embeds the `URLSearchParams` construction loop of
  `twilioRequest` (skip `null`/`undefined`, append one field per array
  element, stringify scalars).
* `serializeForm`/`parseForm` model `URLSearchParams.toString` (the WHATWG
  `application/x-www-form-urlencoded` serializer: `*-._` and alphanumerics
  kept, space to `+`, anything else percent-escaped per UTF-8 byte) and the
  inverse decoder, used for the round-trip property.
* `parseJson` models `JSON.parse` (objects, arrays, strings with the
  standard escapes, integer numbers, `true`/`false`/`null`); parse failure
  is `none`.
* `handleResponse`, `twilioRequest`, `sendMessageHandler` and
  `formatSuccessLines` embed the response classifier, the request pipeline
  and the `send_message` tool handler.  The network is an explicit oracle
  `HttpRequest → Except String HttpResponse` (an `.error` result models a
  rejected `fetch`).
-/

/-! ## Configuration and parameter values -/

/-- Server configuration (`TwilioConfig` in the source).  Fields are
`Option String`: `none` models a missing (`undefined`) field, so the
JavaScript truthiness checks on the config can be expressed. -/
structure TwilioConfig where
  accountSid : Option String
  apiKey : Option String
  apiSecret : Option String
deriving DecidableEq

/-- JavaScript falsiness of an optional string: `undefined`, `null` and the
empty string are falsy. -/
def falsyStr : Option String → Bool
  | none => true
  | some s => s == ""

/-- A value of the `Record<string, any>` request body: a string, a number,
an array of strings, `null`, or `undefined` (per the spec the parameter
mapping holds strings, numbers, or lists of strings). -/
inductive ParamValue where
  | pstr (s : String)
  | pnum (n : Int)
  | plist (xs : List String)
  | pnull
  | pundefined
deriving DecidableEq

/-- JavaScript `String(n)` for an integral number. -/
def intToJsStr (n : Int) : String := toString n

/-- The fields appended to the `URLSearchParams` for one body entry,
following the loop in `twilioRequest`: skip `undefined`/`null`, append one
field per array element, otherwise append the stringified scalar. -/
def entryPairs : String × ParamValue → List (String × String)
  | (_, ParamValue.pnull) => []
  | (_, ParamValue.pundefined) => []
  | (k, ParamValue.plist xs) => xs.map (fun x => (k, x))
  | (k, ParamValue.pstr s) => [(k, s)]
  | (k, ParamValue.pnum n) => [(k, intToJsStr n)]

/-- All fields appended to the `URLSearchParams` by the serialization loop
of `twilioRequest`, in order. -/
def bodyPairs : List (String × ParamValue) → List (String × String)
  | [] => []
  | e :: rest => entryPairs e ++ bodyPairs rest

/-- The values stored under key `k` in a field list, in order. -/
def collectKey (k : String) : List (String × String) → List String
  | [] => []
  | (k2, v) :: rest =>
    if k2 = k then v :: collectKey k rest else collectKey k rest

/-- The number of fields with key `k`. -/
def countKey (k : String) (ps : List (String × String)) : Nat :=
  (collectKey k ps).length

lemma collectKey_append (k : String) (a b : List (String × String)) :
    collectKey k (a ++ b) = collectKey k a ++ collectKey k b := by
  induction a with
  | nil => rfl
  | cons p rest ih =>
    obtain ⟨k2, v⟩ := p
    by_cases h : k2 = k <;> simp [collectKey, h, ih]

lemma collectKey_entryPairs_ne (k k2 : String) (v : ParamValue) (h : k2 ≠ k) :
    collectKey k (entryPairs (k2, v)) = [] := by
  cases v with
  | plist xs =>
    induction xs with
    | nil => rfl
    | cons x rest ih => simpa [entryPairs, collectKey, h] using ih
  | pstr s => simp [entryPairs, collectKey, h]
  | pnum n => simp [entryPairs, collectKey, h]
  | pnull => rfl
  | pundefined => rfl

lemma collectKey_entryPairs_list (k : String) (xs : List String) :
    collectKey k (entryPairs (k, ParamValue.plist xs)) = xs := by
  induction xs with
  | nil => rfl
  | cons x rest ih => simpa [entryPairs, collectKey] using ih

lemma collectKey_bodyPairs_not_mem (k : String)
    (body : List (String × ParamValue)) (h : k ∉ body.map Prod.fst) :
    collectKey k (bodyPairs body) = [] := by
  induction body with
  | nil => rfl
  | cons e rest ih =>
    obtain ⟨k2, v⟩ := e
    simp only [List.map_cons, List.mem_cons] at h
    push_neg at h
    rw [bodyPairs, collectKey_append,
      collectKey_entryPairs_ne k k2 v (fun hk => h.1 hk.symm), ih h.2]
    rfl

/-- With duplicate-free keys (as with a JavaScript object), the fields
collected under a list-valued key are exactly the list elements, in
order. -/
lemma collectKey_bodyPairs_eq (k : String) (xs : List String)
    (body : List (String × ParamValue))
    (hnd : (body.map Prod.fst).Nodup)
    (hmem : (k, ParamValue.plist xs) ∈ body) :
    collectKey k (bodyPairs body) = xs := by
  induction body with
  | nil => simp at hmem
  | cons e rest ih =>
    obtain ⟨k2, v⟩ := e
    simp only [List.map_cons, List.nodup_cons] at hnd
    rcases List.mem_cons.mp hmem with h | h
    · obtain ⟨hk, hv⟩ := Prod.mk.injEq .. ▸ h
      cases h
      rw [bodyPairs, collectKey_append, collectKey_entryPairs_list,
        collectKey_bodyPairs_not_mem k rest hnd.1, List.append_nil]
    · have hk2 : k2 ≠ k := by
        intro hk
        subst hk
        exact hnd.1 (List.mem_map_of_mem Prod.fst h)
      rw [bodyPairs, collectKey_append,
        collectKey_entryPairs_ne k k2 v hk2, List.nil_append,
        ih hnd.2 h]

/-- With duplicate-free keys, a `null`/`undefined` entry contributes no
field at all. -/
lemma collectKey_bodyPairs_dropped (k : String) (v : ParamValue)
    (body : List (String × ParamValue))
    (hnd : (body.map Prod.fst).Nodup)
    (hmem : (k, v) ∈ body)
    (hv : v = ParamValue.pnull ∨ v = ParamValue.pundefined) :
    collectKey k (bodyPairs body) = [] := by
  induction body with
  | nil => simp at hmem
  | cons e rest ih =>
    obtain ⟨k2, w⟩ := e
    simp only [List.map_cons, List.nodup_cons] at hnd
    rcases List.mem_cons.mp hmem with h | h
    · cases h
      rcases hv with hv | hv <;>
        subst hv <;>
        rw [bodyPairs, collectKey_append,
          collectKey_bodyPairs_not_mem k rest hnd.1] <;>
        rfl
    · have hk2 : k2 ≠ k := by
        intro hk
        subst hk
        exact hnd.1 (List.mem_map_of_mem Prod.fst h)
      rw [bodyPairs, collectKey_append,
        collectKey_entryPairs_ne k k2 w hk2, List.nil_append,
        ih hnd.2 h]

/-! ## The form-urlencoded serializer (`URLSearchParams.toString`)

Modelled from the spec: `URLSearchParams` is a platform library, not part of
the repository.  The glossary defines the format as key/value pairs
percent-encoded and joined with `&`, repeated keys representing multi-valued
fields; the WHATWG serializer keeps alphanumerics and `*-._`, turns space
into `+`, and escapes every other UTF-8 byte as uppercase `%XY`. -/

/-- The UTF-8 bytes of a code point. -/
def utf8Bytes (n : Nat) : List Nat :=
  if n < 128 then [n]
  else if n < 2048 then [192 + n / 64, 128 + n % 64]
  else if n < 65536 then [224 + n / 4096, 128 + n / 64 % 64, 128 + n % 64]
  else [240 + n / 262144, 128 + n / 4096 % 64, 128 + n / 64 % 64, 128 + n % 64]

/-- The UTF-8 bytes of a character sequence. -/
def utf8Flatten : List Char → List Nat
  | [] => []
  | c :: rest => utf8Bytes c.toNat ++ utf8Flatten rest

/-! Decoding a UTF-8 byte sequence back into characters (`none` on a
malformed sequence).  The continuation helpers `utf8ContN` consume the `N`
remaining continuation bytes of a multi-byte sequence, accumulating the
code point. -/

mutual

def utf8DecodeGo : List Nat → Option (List Char)
  | [] => some []
  | b :: rest =>
    if b < 128 then (utf8DecodeGo rest).map (fun cs => Char.ofNat b :: cs)
    else if b < 192 then none
    else if b < 224 then utf8Cont1 (b - 192) rest
    else if b < 240 then utf8Cont2 (b - 224) rest
    else utf8Cont3 (b - 240) rest

def utf8Cont1 (acc : Nat) : List Nat → Option (List Char)
  | [] => none
  | b :: rest =>
    if 128 ≤ b ∧ b < 192 then
      (utf8DecodeGo rest).map (fun cs => Char.ofNat (acc * 64 + (b - 128)) :: cs)
    else none

def utf8Cont2 (acc : Nat) : List Nat → Option (List Char)
  | [] => none
  | b :: rest =>
    if 128 ≤ b ∧ b < 192 then utf8Cont1 (acc * 64 + (b - 128)) rest
    else none

def utf8Cont3 (acc : Nat) : List Nat → Option (List Char)
  | [] => none
  | b :: rest =>
    if 128 ≤ b ∧ b < 192 then utf8Cont2 (acc * 64 + (b - 128)) rest
    else none
end

/-- Decode a UTF-8 byte sequence back into characters. -/
def utf8Decode (bs : List Nat) : Option (List Char) := utf8DecodeGo bs

/-- Characters the form serializer leaves unescaped: alphanumerics and
`* - . _`. -/
def isFormUnescaped (c : Char) : Bool :=
  decide ((48 ≤ c.toNat ∧ c.toNat ≤ 57) ∨ (65 ≤ c.toNat ∧ c.toNat ≤ 90) ∨
    (97 ≤ c.toNat ∧ c.toNat ≤ 122) ∨ c.toNat = 42 ∨ c.toNat = 45 ∨
    c.toNat = 46 ∨ c.toNat = 95)

/-- Uppercase hexadecimal digit. -/
def hexDigitChar : Nat → Char
  | 0 => '0' | 1 => '1' | 2 => '2' | 3 => '3' | 4 => '4'
  | 5 => '5' | 6 => '6' | 7 => '7' | 8 => '8' | 9 => '9'
  | 10 => 'A' | 11 => 'B' | 12 => 'C' | 13 => 'D' | 14 => 'E' | 15 => 'F'
  | _ => '0'

/-- Percent-escape a byte sequence. -/
def listEsc : List Nat → List Char
  | [] => []
  | b :: rest => '%' :: hexDigitChar (b / 16) :: hexDigitChar (b % 16) :: listEsc rest

/-- Serialize one character for a form body. -/
def encodeChar (c : Char) : List Char :=
  if isFormUnescaped c then [c]
  else if c = ' ' then ['+']
  else listEsc (utf8Bytes c.toNat)

/-- Serialize a character sequence for a form body. -/
def encodeStr : List Char → List Char
  | [] => []
  | c :: rest => encodeChar c ++ encodeStr rest

/-- One serialized `key=value` segment. -/
def encodePairChars (p : String × String) : List Char :=
  encodeStr p.1.data ++ '=' :: encodeStr p.2.data

/-- Join segments with a separator character. -/
def joinSegs (sep : Char) : List (List Char) → List Char
  | [] => []
  | [g] => g
  | g :: rest => g ++ sep :: joinSegs sep rest

/-- The serialized form body (`URLSearchParams.toString`). -/
def serializeFormChars (ps : List (String × String)) : List Char :=
  joinSegs '&' (ps.map encodePairChars)

/-- The serialized form body as a string. -/
def serializeForm (ps : List (String × String)) : String :=
  String.mk (serializeFormChars ps)

/-! ## The form-urlencoded decoder

Modelled from the spec: the round-trip property of §8 speaks of "decoding
that body (collecting repeated keys into lists)"; no decoder exists in the
repository, so this one follows the spec's words (split on `&`, split each
segment at the first `=`, percent-decode both halves, collect values of
repeated keys in order). -/

/-- The numeric value of a hexadecimal digit character. -/
def hexVal? (c : Char) : Option Nat :=
  if 48 ≤ c.toNat ∧ c.toNat ≤ 57 then some (c.toNat - 48)
  else if 65 ≤ c.toNat ∧ c.toNat ≤ 70 then some (c.toNat - 55)
  else if 97 ≤ c.toNat ∧ c.toNat ≤ 102 then some (c.toNat - 87)
  else none

/-! Turning a percent-encoded character sequence back into the underlying
bytes: `+` is a space, `%XY` is a byte, any other character contributes its
own UTF-8 bytes; a `%` not followed by two hexadecimal digits fails. -/

mutual

def formBytes : List Char → Option (List Nat)
  | [] => some []
  | c :: rest =>
    if c = '%' then formBytesEsc rest
    else if c = '+' then (formBytes rest).map (fun t => 32 :: t)
    else (formBytes rest).map (fun t => utf8Bytes c.toNat ++ t)

def formBytesEsc : List Char → Option (List Nat)
  | h1 :: h2 :: rest =>
    match hexVal? h1, hexVal? h2 with
    | some a, some b => (formBytes rest).map (fun t => (16 * a + b) :: t)
    | _, _ => none
  | _ => none

end

/-- Percent-decode a character sequence. -/
def percentDecode (cs : List Char) : Option (List Char) :=
  match formBytes cs with
  | some bs => utf8Decode bs
  | none => none

/-- Prepend a character to the first group of a split. -/
def consHead (c : Char) : List (List Char) → List (List Char)
  | [] => [[c]]
  | g :: gs => (c :: g) :: gs

/-- Split a character sequence on a separator. -/
def splitSegs (sep : Char) : List Char → List (List Char)
  | [] => [[]]
  | c :: rest =>
    if c = sep then [] :: splitSegs sep rest
    else consHead c (splitSegs sep rest)

/-- Split a character sequence at the first occurrence of a separator
(everything if absent, with an empty remainder). -/
def splitFirst (sep : Char) : List Char → List Char × List Char
  | [] => ([], [])
  | c :: rest =>
    if c = sep then ([], rest)
    else
      let p := splitFirst sep rest
      (c :: p.1, p.2)

/-- Decode one `key=value` segment. -/
def parsePairChars (seg : List Char) : Option (String × String) :=
  let p := splitFirst '=' seg
  match percentDecode p.1, percentDecode p.2 with
  | some k, some v => some (String.mk k, String.mk v)
  | _, _ => none

/-- Map a fallible function over a list, failing if any element fails. -/
def optionMap (f : α → Option β) : List α → Option (List β)
  | [] => some []
  | a :: rest =>
    match f a, optionMap f rest with
    | some b, some bs => some (b :: bs)
    | _, _ => none

/-- Decode a form body into its field list. -/
def parseFormChars (cs : List Char) : Option (List (String × String)) :=
  optionMap parsePairChars ((splitSegs '&' cs).filter (fun g => !g.isEmpty))

/-- Decode a form body given as a string. -/
def parseForm (s : String) : Option (List (String × String)) :=
  parseFormChars s.data

/-! ## Round-trip lemmas for the codec -/

lemma utf8Decode_one (n : Nat) (h : n < 128) (bs : List Nat) :
    utf8DecodeGo (n :: bs) = (utf8DecodeGo bs).map (fun cs => Char.ofNat n :: cs) := by
  rw [utf8DecodeGo]
  simp only [if_pos h]

lemma utf8Decode_two (n : Nat) (h1 : 128 ≤ n) (h2 : n < 2048) (bs : List Nat) :
    utf8DecodeGo ((192 + n / 64) :: (128 + n % 64) :: bs)
      = (utf8DecodeGo bs).map (fun cs => Char.ofNat n :: cs) := by
  have e1 : ¬(192 + n / 64 < 128) := by omega
  have e2 : ¬(192 + n / 64 < 192) := by omega
  have e3 : 192 + n / 64 < 224 := by omega
  have e4 : 128 ≤ 128 + n % 64 ∧ 128 + n % 64 < 192 := by omega
  rw [utf8DecodeGo]
  simp only [if_neg e1, if_neg e2, if_pos e3]
  rw [utf8Cont1]
  simp only [if_pos e4]
  have hv : (192 + n / 64 - 192) * 64 + (128 + n % 64 - 128) = n := by omega
  rw [hv]

lemma utf8Decode_three (n : Nat) (h1 : 2048 ≤ n) (h2 : n < 65536) (bs : List Nat) :
    utf8DecodeGo ((224 + n / 4096) :: (128 + n / 64 % 64) :: (128 + n % 64) :: bs)
      = (utf8DecodeGo bs).map (fun cs => Char.ofNat n :: cs) := by
  have e1 : ¬(224 + n / 4096 < 128) := by omega
  have e2 : ¬(224 + n / 4096 < 192) := by omega
  have e3 : ¬(224 + n / 4096 < 224) := by omega
  have e4 : 224 + n / 4096 < 240 := by omega
  have e5 : 128 ≤ 128 + n / 64 % 64 ∧ 128 + n / 64 % 64 < 192 := by omega
  have e6 : 128 ≤ 128 + n % 64 ∧ 128 + n % 64 < 192 := by omega
  rw [utf8DecodeGo]
  simp only [if_neg e1, if_neg e2, if_neg e3, if_pos e4]
  rw [utf8Cont2]
  simp only [if_pos e5]
  rw [utf8Cont1]
  simp only [if_pos e6]
  have hv : ((224 + n / 4096 - 224) * 64 + (128 + n / 64 % 64 - 128)) * 64
      + (128 + n % 64 - 128) = n := by omega
  rw [hv]

lemma utf8Decode_four (n : Nat) (h1 : 65536 ≤ n) (bs : List Nat) :
    utf8DecodeGo ((240 + n / 262144) :: (128 + n / 4096 % 64)
        :: (128 + n / 64 % 64) :: (128 + n % 64) :: bs)
      = (utf8DecodeGo bs).map (fun cs => Char.ofNat n :: cs) := by
  have e1 : ¬(240 + n / 262144 < 128) := by omega
  have e2 : ¬(240 + n / 262144 < 192) := by omega
  have e3 : ¬(240 + n / 262144 < 224) := by omega
  have e4 : ¬(240 + n / 262144 < 240) := by omega
  have e5 : 128 ≤ 128 + n / 4096 % 64 ∧ 128 + n / 4096 % 64 < 192 := by omega
  have e6 : 128 ≤ 128 + n / 64 % 64 ∧ 128 + n / 64 % 64 < 192 := by omega
  have e7 : 128 ≤ 128 + n % 64 ∧ 128 + n % 64 < 192 := by omega
  rw [utf8DecodeGo]
  simp only [if_neg e1, if_neg e2, if_neg e3, if_neg e4]
  rw [utf8Cont3]
  simp only [if_pos e5]
  rw [utf8Cont2]
  simp only [if_pos e6]
  rw [utf8Cont1]
  simp only [if_pos e7]
  have hv : (((240 + n / 262144 - 240) * 64 + (128 + n / 4096 % 64 - 128)) * 64
      + (128 + n / 64 % 64 - 128)) * 64 + (128 + n % 64 - 128) = n := by omega
  rw [hv]

lemma utf8Decode_utf8Bytes (c : Char) (bs : List Nat) :
    utf8DecodeGo (utf8Bytes c.toNat ++ bs)
      = (utf8DecodeGo bs).map (fun cs => c :: cs) := by
  have hofn : Char.ofNat c.toNat = c := Char.ofNat_toNat c
  by_cases h1 : c.toNat < 128
  · rw [utf8Bytes, if_pos h1]
    simpa [hofn] using utf8Decode_one c.toNat h1 bs
  · by_cases h2 : c.toNat < 2048
    · rw [utf8Bytes, if_neg h1, if_pos h2]
      simpa [hofn] using utf8Decode_two c.toNat (by omega) h2 bs
    · by_cases h3 : c.toNat < 65536
      · rw [utf8Bytes, if_neg h1, if_neg h2, if_pos h3]
        simpa [hofn] using utf8Decode_three c.toNat (by omega) h3 bs
      · rw [utf8Bytes, if_neg h1, if_neg h2, if_neg h3]
        simpa [hofn] using utf8Decode_four c.toNat (by omega) bs

lemma utf8DecodeGo_utf8Flatten (cs : List Char) :
    utf8DecodeGo (utf8Flatten cs) = some cs := by
  induction cs with
  | nil => rfl
  | cons c rest ih =>
    rw [utf8Flatten, utf8Decode_utf8Bytes, ih, Option.map_some']

lemma utf8Decode_utf8Flatten (cs : List Char) :
    utf8Decode (utf8Flatten cs) = some cs :=
  utf8DecodeGo_utf8Flatten cs

lemma char_toNat_lt (c : Char) : c.toNat < 1114112 := by
  rcases c.valid with h | h
  · exact Nat.lt_trans h (by norm_num)
  · exact h.2

lemma utf8Bytes_lt_256 (n : Nat) (h : n < 1114112) :
    ∀ b ∈ utf8Bytes n, b < 256 := by
  intro b hb
  rw [utf8Bytes] at hb
  by_cases h1 : n < 128
  · rw [if_pos h1] at hb
    simp only [List.mem_cons, List.not_mem_nil, or_false] at hb
    omega
  · rw [if_neg h1] at hb
    by_cases h2 : n < 2048
    · rw [if_pos h2] at hb
      simp only [List.mem_cons, List.not_mem_nil, or_false] at hb
      rcases hb with hb | hb <;> omega
    · rw [if_neg h2] at hb
      by_cases h3 : n < 65536
      · rw [if_pos h3] at hb
        simp only [List.mem_cons, List.not_mem_nil, or_false] at hb
        rcases hb with hb | hb | hb <;> omega
      · rw [if_neg h3] at hb
        simp only [List.mem_cons, List.not_mem_nil, or_false] at hb
        rcases hb with hb | hb | hb | hb <;> omega

lemma hexVal_hexDigitChar (x : Nat) (h : x < 16) :
    hexVal? (hexDigitChar x) = some x := by
  interval_cases x <;> rfl

lemma hexDigitChar_ne (x : Nat) (h : x < 16) :
    hexDigitChar x ≠ '&' ∧ hexDigitChar x ≠ '=' := by
  interval_cases x <;> exact ⟨by decide, by decide⟩

lemma formBytes_listEsc (bs : List Nat) (hb : ∀ b ∈ bs, b < 256)
    (rest : List Char) :
    formBytes (listEsc bs ++ rest)
      = (formBytes rest).map (fun t => bs ++ t) := by
  induction bs with
  | nil =>
    simp only [listEsc, List.nil_append]
    cases formBytes rest <;> rfl
  | cons b bs2 ih =>
    have hblt : b < 256 := hb b (List.mem_cons_self b bs2)
    have hrec := ih (fun y hy => hb y (List.mem_cons_of_mem b hy))
    have hhi : b / 16 < 16 := by omega
    have hlo : b % 16 < 16 := by omega
    rw [listEsc, List.cons_append, formBytes, if_pos rfl, List.cons_append,
      List.cons_append, formBytesEsc, hexVal_hexDigitChar _ hhi,
      hexVal_hexDigitChar _ hlo]
    simp only [hrec, Option.map_map]
    have hbv : 16 * (b / 16) + b % 16 = b := by omega
    rw [hbv]
    cases formBytes rest <;> rfl

lemma isFormUnescaped_facts (c : Char) (h : isFormUnescaped c = true) :
    c.toNat < 128 ∧ c.toNat ≠ 37 ∧ c.toNat ≠ 43 ∧ c.toNat ≠ 38 ∧
      c.toNat ≠ 61 := by
  rw [isFormUnescaped, decide_eq_true_eq] at h
  rcases h with h | h | h | h | h | h | h <;> omega

lemma char_eq_of_toNat (c d : Char) (h : c = d) : c.toNat = d.toNat := by
  rw [h]

lemma formBytes_encodeChar (c : Char) (rest : List Char) :
    formBytes (encodeChar c ++ rest)
      = (formBytes rest).map (fun t => utf8Bytes c.toNat ++ t) := by
  rw [encodeChar]
  by_cases hu : isFormUnescaped c
  · rw [if_pos hu]
    obtain ⟨_, hp, hq, _, _⟩ := isFormUnescaped_facts c hu
    have hc1 : ¬(c = '%') := fun hc => hp (char_eq_of_toNat c '%' hc)
    have hc2 : ¬(c = '+') := fun hc => hq (char_eq_of_toNat c '+' hc)
    rw [List.singleton_append, formBytes, if_neg hc1, if_neg hc2]
  · rw [if_neg hu]
    by_cases hs : c = ' '
    · subst hs
      rw [if_pos rfl, List.singleton_append, formBytes, if_neg (by decide),
        if_pos rfl]
      have : utf8Bytes (' '.toNat) = [32] := by decide
      rw [this]
      cases formBytes rest <;> rfl
    · rw [if_neg hs]
      exact formBytes_listEsc (utf8Bytes c.toNat)
        (utf8Bytes_lt_256 c.toNat (char_toNat_lt c)) rest

lemma formBytes_encodeStr (cs : List Char) (rest : List Char) :
    formBytes (encodeStr cs ++ rest)
      = (formBytes rest).map (fun t => utf8Flatten cs ++ t) := by
  induction cs with
  | nil =>
    simp only [encodeStr, utf8Flatten, List.nil_append]
    cases formBytes rest <;> rfl
  | cons c cs2 ih =>
    rw [encodeStr, utf8Flatten, List.append_assoc, formBytes_encodeChar, ih]
    cases formBytes rest <;> simp

lemma percentDecode_encodeStr (cs : List Char) :
    percentDecode (encodeStr cs) = some cs := by
  have h0 : encodeStr cs ++ ([] : List Char) = encodeStr cs := List.append_nil _
  have h := formBytes_encodeStr cs []
  rw [h0] at h
  rw [percentDecode, h]
  simp only [formBytes, Option.map_some', List.append_nil]
  exact utf8Decode_utf8Flatten cs

lemma encodeChar_mem_ne (c x : Char) (hx : x ∈ encodeChar c) :
    x ≠ '&' ∧ x ≠ '=' := by
  rw [encodeChar] at hx
  by_cases hu : isFormUnescaped c
  · rw [if_pos hu] at hx
    simp only [List.mem_singleton] at hx
    subst hx
    obtain ⟨_, _, _, h1, h2⟩ := isFormUnescaped_facts x hu
    exact ⟨fun hc => h1 (char_eq_of_toNat x '&' hc),
      fun hc => h2 (char_eq_of_toNat x '=' hc)⟩
  · rw [if_neg hu] at hx
    by_cases hs : c = ' '
    · rw [if_pos hs] at hx
      simp only [List.mem_singleton] at hx
      subst hx
      exact ⟨by decide, by decide⟩
    · rw [if_neg hs] at hx
      have hb := utf8Bytes_lt_256 c.toNat (char_toNat_lt c)
      revert hx
      generalize utf8Bytes c.toNat = bs at hb
      induction bs with
      | nil => intro hx; simp [listEsc] at hx
      | cons b bs2 ih =>
        intro hx
        have hblt : b < 256 := hb b (List.mem_cons_self b bs2)
        rw [listEsc] at hx
        simp only [List.mem_cons] at hx
        rcases hx with hx | hx | hx | hx
        · subst hx; exact ⟨by decide, by decide⟩
        · subst hx; exact hexDigitChar_ne (b / 16) (by omega)
        · subst hx; exact hexDigitChar_ne (b % 16) (by omega)
        · exact ih (fun y hy => hb y (List.mem_cons_of_mem b hy)) hx

lemma encodeStr_mem_ne (cs : List Char) (x : Char) (hx : x ∈ encodeStr cs) :
    x ≠ '&' ∧ x ≠ '=' := by
  induction cs with
  | nil => simp [encodeStr] at hx
  | cons c cs2 ih =>
    rw [encodeStr] at hx
    rcases List.mem_append.mp hx with hx | hx
    · exact encodeChar_mem_ne c x hx
    · exact ih hx

lemma encodePairChars_mem_ne (p : String × String) (x : Char)
    (hx : x ∈ encodePairChars p) : x ≠ '&' := by
  rw [encodePairChars] at hx
  rcases List.mem_append.mp hx with hx | hx
  · exact (encodeStr_mem_ne _ x hx).1
  · rcases List.mem_cons.mp hx with hx | hx
    · subst hx; decide
    · exact (encodeStr_mem_ne _ x hx).1

lemma splitSegs_no_sep (sep : Char) (g : List Char) (h : sep ∉ g) :
    splitSegs sep g = [g] := by
  induction g with
  | nil => rfl
  | cons c r ih =>
    have hc : ¬(c = sep) := fun hc => h (hc ▸ List.mem_cons_self c r)
    rw [splitSegs, if_neg hc, ih (fun hm => h (List.mem_cons_of_mem c hm))]
    rfl

lemma splitSegs_append (sep : Char) (g t : List Char) (h : sep ∉ g) :
    splitSegs sep (g ++ sep :: t) = g :: splitSegs sep t := by
  induction g with
  | nil => rw [List.nil_append, splitSegs, if_pos rfl]
  | cons c r ih =>
    have hc : ¬(c = sep) := fun hc => h (hc ▸ List.mem_cons_self c r)
    rw [List.cons_append, splitSegs, if_neg hc,
      ih (fun hm => h (List.mem_cons_of_mem c hm))]
    rfl

lemma splitSegs_joinSegs (sep : Char) (groups : List (List Char))
    (hne : groups ≠ []) (h : ∀ g ∈ groups, sep ∉ g) :
    splitSegs sep (joinSegs sep groups) = groups := by
  induction groups with
  | nil => exact absurd rfl hne
  | cons g gs ih =>
    cases gs with
    | nil =>
      rw [joinSegs]
      exact splitSegs_no_sep sep g (h g (List.mem_cons_self g []))
    | cons g2 gs2 =>
      have hj : joinSegs sep (g :: g2 :: gs2)
          = g ++ sep :: joinSegs sep (g2 :: gs2) := rfl
      rw [hj, splitSegs_append sep g _ (h g (List.mem_cons_self g _)),
        ih (List.cons_ne_nil g2 gs2) (fun y hy => h y (List.mem_cons_of_mem g hy))]

lemma splitFirst_append (a b : List Char) (h : '=' ∉ a) :
    splitFirst '=' (a ++ '=' :: b) = (a, b) := by
  induction a with
  | nil => rw [List.nil_append, splitFirst, if_pos rfl]
  | cons c r ih =>
    have hc : ¬(c = '=') := fun hc => h (hc ▸ List.mem_cons_self c r)
    rw [List.cons_append, splitFirst, if_neg hc,
      ih (fun hm => h (List.mem_cons_of_mem c hm))]

lemma parsePairChars_encodePairChars (p : String × String) :
    parsePairChars (encodePairChars p) = some p := by
  obtain ⟨k, v⟩ := p
  have hne : '=' ∉ encodeStr k.data :=
    fun hm => (encodeStr_mem_ne k.data '=' hm).2 rfl
  rw [parsePairChars, encodePairChars]
  simp only [splitFirst_append _ _ hne]
  rw [percentDecode_encodeStr, percentDecode_encodeStr]

lemma encodePairChars_ne_nil (p : String × String) :
    encodePairChars p ≠ [] := by
  rw [encodePairChars]
  simp

lemma filter_nonempty_eq_self (gl : List (List Char))
    (h : ∀ g ∈ gl, g ≠ []) :
    gl.filter (fun g => !g.isEmpty) = gl := by
  induction gl with
  | nil => rfl
  | cons g gs ih =>
    have hg : (!g.isEmpty) = true := by
      simp [List.isEmpty_iff, h g (List.mem_cons_self g gs)]
    have hrec := ih (fun y hy => h y (List.mem_cons_of_mem g hy))
    simp only [List.filter_cons, hg, if_true, hrec]

lemma optionMap_encodePair (ps : List (String × String)) :
    optionMap parsePairChars (ps.map encodePairChars) = some ps := by
  induction ps with
  | nil => rfl
  | cons p rest ih =>
    rw [List.map_cons, optionMap, parsePairChars_encodePairChars, ih]

/-- Round-trip at the character level: decoding an encoded form body gives
back exactly the field list. -/
lemma parseFormChars_serializeFormChars (ps : List (String × String)) :
    parseFormChars (serializeFormChars ps) = some ps := by
  cases ps with
  | nil => rfl
  | cons p rest =>
    have hfree : ∀ g ∈ (p :: rest).map encodePairChars, '&' ∉ g := by
      intro g hg hx
      obtain ⟨q, _, hq⟩ := List.mem_map.mp hg
      exact encodePairChars_mem_ne q '&' (hq ▸ hx) rfl
    have hnn : ∀ g ∈ (p :: rest).map encodePairChars, g ≠ [] := by
      intro g hg
      obtain ⟨q, _, hq⟩ := List.mem_map.mp hg
      exact hq ▸ encodePairChars_ne_nil q
    rw [parseFormChars, serializeFormChars,
      splitSegs_joinSegs '&' ((p :: rest).map encodePairChars) (by simp) hfree,
      filter_nonempty_eq_self _ hnn, optionMap_encodePair]

/-- Round-trip at the string level. -/
lemma parseForm_serializeForm (ps : List (String × String)) :
    parseForm (serializeForm ps) = some ps :=
  parseFormChars_serializeFormChars ps

/-! ## JSON values and JavaScript semantics helpers -/

/-- A parsed JSON value (`JSON.parse` result).  Numbers are modelled as
integers, which covers every numeric field involved in this program. -/
inductive JVal where
  | jnull
  | jbool (b : Bool)
  | jnum (n : Int)
  | jstr (s : String)
  | jarr (xs : List JVal)
  | jobj (fields : List (String × JVal))

/-- The last binding of a key in an object field list (with duplicate keys
`JSON.parse` keeps the last occurrence). -/
def lookupLast (fs : List (String × JVal)) (k : String) : Option JVal :=
  match fs with
  | [] => none
  | (k2, v) :: rest =>
    match lookupLast rest k with
    | some r => some r
    | none => if k2 = k then some v else none

/-- JavaScript property access `v.k`: `none` means the access throws (a
`TypeError` on `null`); `some none` is `undefined`; `some (some x)` is the
value.  Non-object primitives are boxed and have no such property, hence
`undefined`. -/
def jsMember : JVal → String → Option (Option JVal)
  | JVal.jnull, _ => none
  | JVal.jobj fs, k => some (lookupLast fs k)
  | _, _ => some none

/-- Property access that never throws (used only where the value is known
not to be `null`): `undefined` for missing fields. -/
def jsGetD (v : JVal) (k : String) : Option JVal :=
  (jsMember v k).getD none

/-- JavaScript truthiness of a possibly-undefined value. -/
def jsTruthy : Option JVal → Bool
  | none => false
  | some JVal.jnull => false
  | some (JVal.jbool b) => b
  | some (JVal.jnum n) => if n = 0 then false else true
  | some (JVal.jstr s) => if s = "" then false else true
  | some (JVal.jarr _) => true
  | some (JVal.jobj _) => true

/-- JavaScript `toString` of one array element inside `Array#toString`:
`null` and `undefined` elements print as the empty string.  Nested arrays
are not modelled (the message resources this program handles carry no
array fields). -/
def jscalarStr : JVal → String
  | JVal.jnull => ""
  | JVal.jbool b => if b then "true" else "false"
  | JVal.jnum n => intToJsStr n
  | JVal.jstr s => s
  | JVal.jarr _ => ""
  | JVal.jobj _ => "[object Object]"

/-- JavaScript string interpolation of a value (template literals):
array elements are joined with commas, objects print as
`[object Object]`. -/
def jvalToStr : JVal → String
  | JVal.jnull => "null"
  | JVal.jbool b => if b then "true" else "false"
  | JVal.jnum n => intToJsStr n
  | JVal.jstr s => s
  | JVal.jarr xs => String.intercalate "," (xs.map jscalarStr)
  | JVal.jobj _ => "[object Object]"

/-- JavaScript string interpolation of a possibly-undefined value. -/
def jsToStr : Option JVal → String
  | none => "undefined"
  | some v => jvalToStr v

/-! ## A model of `JSON.parse`

Modelled from the spec: `JSON.parse` is a platform primitive.  The model
parses objects, arrays, strings (with the standard escapes and `\uXXXX`),
integer numbers, `true`, `false` and `null`; a fractional or exponent
number, or any malformed input, fails (`none`).  This is faithful on every
body this program exchanges, whose numeric fields are integers. -/

/-- JSON whitespace removal. -/
def skipWs : List Char → List Char
  | [] => []
  | c :: rest =>
    if c = ' ' || c = '\t' || c = '\n' || c = '\r' then skipWs rest
    else c :: rest

/-- The character denoted by a string escape (without `\u`). -/
def escChar? (e : Char) : Option Char :=
  if e = '"' then some '"'
  else if e = '\\' then some '\\'
  else if e = '/' then some '/'
  else if e = 'b' then some '\x08'
  else if e = 'f' then some '\x0c'
  else if e = 'n' then some '\n'
  else if e = 'r' then some '\r'
  else if e = 't' then some '\t'
  else none

/-- Parse the body of a JSON string after the opening quote, returning the
content and the remainder after the closing quote. -/
def parseStringChars : List Char → Option (List Char × List Char)
  | [] => none
  | c :: rest =>
    if c = '"' then some ([], rest)
    else if c = '\\' then
      match rest with
      | [] => none
      | e :: rest2 =>
        match escChar? e with
        | some ec =>
          match parseStringChars rest2 with
          | some (s, r) => some (ec :: s, r)
          | none => none
        | none =>
          if e = 'u' then
            match rest2 with
            | h1 :: h2 :: h3 :: h4 :: rest3 =>
              match hexVal? h1, hexVal? h2, hexVal? h3, hexVal? h4 with
              | some a, some b, some c3, some d4 =>
                let code := ((a * 16 + b) * 16 + c3) * 16 + d4
                if code < 55296 ∨ 57343 < code then
                  match parseStringChars rest3 with
                  | some (s, r) => some (Char.ofNat code :: s, r)
                  | none => none
                else none
              | _, _, _, _ => none
            | _ => none
          else none
    else
      match parseStringChars rest with
      | some (s, r) => some (c :: s, r)
      | none => none

/-- Is this a decimal digit? -/
def isDigitChar (c : Char) : Bool := 48 ≤ c.toNat && c.toNat ≤ 57

/-- Take the longest digit run. -/
def takeDigits : List Char → List Char × List Char
  | [] => ([], [])
  | c :: rest =>
    if isDigitChar c then
      let p := takeDigits rest
      (c :: p.1, p.2)
    else ([], c :: rest)

/-- The value of a digit run. -/
def digitsToNat (ds : List Char) : Nat :=
  ds.foldl (fun a c => a * 10 + (c.toNat - 48)) 0

/-- Parse a JSON integer number (fractions and exponents fail: the model
covers the integral numbers this program exchanges). -/
def parseNumberChars (cs : List Char) : Option (JVal × List Char) :=
  let pneg := match cs with
    | '-' :: r => (true, r)
    | _ => (false, cs)
  let pd := takeDigits pneg.2
  match pd.1 with
  | [] => none
  | d :: ds2 =>
    if d = '0' ∧ ds2 ≠ [] then none
    else
      match pd.2 with
      | '.' :: _ => none
      | 'e' :: _ => none
      | 'E' :: _ => none
      | _ =>
        let n : Int := Int.ofNat (digitsToNat pd.1)
        some (JVal.jnum (if pneg.1 then -n else n), pd.2)

mutual

/-- Parse one JSON value (fuel-indexed recursive descent). -/
def parseJsonValue : Nat → List Char → Option (JVal × List Char)
  | 0, _ => none
  | Nat.succ f, cs =>
    match skipWs cs with
    | [] => none
    | c :: rest =>
      if c = 'n' then
        match rest with
        | 'u' :: 'l' :: 'l' :: r => some (JVal.jnull, r)
        | _ => none
      else if c = 't' then
        match rest with
        | 'r' :: 'u' :: 'e' :: r => some (JVal.jbool true, r)
        | _ => none
      else if c = 'f' then
        match rest with
        | 'a' :: 'l' :: 's' :: 'e' :: r => some (JVal.jbool false, r)
        | _ => none
      else if c = '"' then
        match parseStringChars rest with
        | some (s, r) => some (JVal.jstr (String.mk s), r)
        | none => none
      else if c = '[' then
        match skipWs rest with
        | ']' :: r => some (JVal.jarr [], r)
        | cs2 =>
          match parseArrayItems f cs2 with
          | some (vs, r) => some (JVal.jarr vs, r)
          | none => none
      else if c = '\x7b' then
        match skipWs rest with
        | '\x7d' :: r => some (JVal.jobj [], r)
        | cs2 =>
          match parseObjectFields f cs2 with
          | some (fs, r) => some (JVal.jobj fs, r)
          | none => none
      else
        parseNumberChars (c :: rest)

/-- Parse `value (, value)* ]` inside an array literal. -/
def parseArrayItems : Nat → List Char → Option (List JVal × List Char)
  | 0, _ => none
  | Nat.succ f, cs =>
    match parseJsonValue f cs with
    | none => none
    | some (v, r1) =>
      match skipWs r1 with
      | ',' :: r2 =>
        match parseArrayItems f r2 with
        | some (vs, r3) => some (v :: vs, r3)
        | none => none
      | ']' :: r2 => some ([v], r2)
      | _ => none

/-- Parse `"key" : value (, "key" : value)* RBRACE` inside an object
literal. -/
def parseObjectFields : Nat → List Char → Option (List (String × JVal) × List Char)
  | 0, _ => none
  | Nat.succ f, cs =>
    match skipWs cs with
    | '"' :: r1 =>
      match parseStringChars r1 with
      | some (k, r2) =>
        match skipWs r2 with
        | ':' :: r3 =>
          match parseJsonValue f r3 with
          | some (v, r4) =>
            match skipWs r4 with
            | ',' :: r5 =>
              match parseObjectFields f r5 with
              | some (fs, r6) => some ((String.mk k, v) :: fs, r6)
              | none => none
            | '\x7d' :: r5 => some ([(String.mk k, v)], r5)
            | _ => none
          | none => none
        | _ => none
      | none => none
    | _ => none

end

/-- The model of `JSON.parse`: parse a value, allow trailing whitespace
only; `none` models the thrown `SyntaxError`. -/
def parseJson (s : String) : Option JVal :=
  match parseJsonValue (2 * s.data.length + 2) s.data with
  | some (v, rest) => if skipWs rest = [] then some v else none
  | none => none

/-! ## The request pipeline (`twilioRequest` and the `send_message` tool) -/

/-- The HTTP method (`'POST' | 'GET'` in the source). -/
inductive HttpMethod where
  | POST
  | GET
deriving DecidableEq

/-- The request handed to `fetch`: URL, method, the three headers set by
`twilioRequest`, and the body (absent for GET). -/
structure HttpRequest where
  url : String
  method : HttpMethod
  authorization : String
  contentType : String
  accept : String
  body : Option String

/-- The response observed from `fetch`: status, status text and the body
text (`response.text()`; `response.json()` is `JSON.parse` of it). -/
structure HttpResponse where
  status : Nat
  statusText : String
  body : String

/-- `Response.ok` per the Fetch specification: status in 200..299. -/
def HttpResponse.isOk (r : HttpResponse) : Bool :=
  200 ≤ r.status && r.status ≤ 299

/-- The base-64 character with index `n`. -/
def base64Char (n : Nat) : Char :=
  if n < 26 then Char.ofNat (65 + n)
  else if n < 52 then Char.ofNat (97 + (n - 26))
  else if n < 62 then Char.ofNat (48 + (n - 52))
  else if n = 62 then '+'
  else '/'

/-- Standard base-64 of a byte sequence (with `=` padding). -/
def base64Bytes : List Nat → List Char
  | [] => []
  | [b1] =>
    [base64Char (b1 / 4), base64Char (b1 % 4 * 16), '=', '=']
  | [b1, b2] =>
    [base64Char (b1 / 4), base64Char (b1 % 4 * 16 + b2 / 16),
      base64Char (b2 % 16 * 4), '=']
  | b1 :: b2 :: b3 :: rest =>
    base64Char (b1 / 4) :: base64Char (b1 % 4 * 16 + b2 / 16)
      :: base64Char (b2 % 16 * 4 + b3 / 64) :: base64Char (b3 % 64)
      :: base64Bytes rest

/-- `Buffer.from(s).toString('base64')`. -/
def base64 (s : String) : String :=
  String.mk (base64Bytes (utf8Flatten s.data))

/-- The fixed API base URL of the source. -/
def API_BASE_URL : String := "https://api.twilio.com/2010-04-01"

/-- The portion of `twilioRequest` that runs before `fetch`: the config
truthiness check (`!config || !config.apiKey || !config.apiSecret` throws
`Server configuration for Twilio is missing.`), the Basic-Auth token, and
the form-encoded body.  Returns the request handed to `fetch`. -/
def prepareRequest (cfg : TwilioConfig) (endpoint : String)
    (method : HttpMethod) (body : List (String × ParamValue)) :
    Except String HttpRequest :=
  if falsyStr cfg.apiKey || falsyStr cfg.apiSecret then
    Except.error "Server configuration for Twilio is missing."
  else
    let authToken := base64 (cfg.apiKey.getD "" ++ ":" ++ cfg.apiSecret.getD "")
    let requestBody := serializeForm (bodyPairs body)
    Except.ok
      ⟨API_BASE_URL ++ endpoint, method, "Basic " ++ authToken,
        "application/x-www-form-urlencoded", "application/json",
        if method = HttpMethod.POST then some requestBody else none⟩

/-- Message of the exception thrown by `JSON.parse` on invalid input.
Modelled from the spec: the platform defines the exact text; only its
existence matters to the pipeline. -/
def jsonParseErrorMessage (raw : String) : String :=
  "Unexpected token in JSON: " ++ raw

/-- A single apostrophe, as a string. -/
def apos : String := String.singleton (Char.ofNat 39)

/-- Message of the `TypeError` thrown when reading a property of `null`.
Modelled from the spec: the platform defines the exact text. -/
def nullReadMessage (prop : String) : String :=
  "Cannot read properties of null (reading " ++ apos ++ prop ++ apos ++ ")"

/-- The error string built for a non-2xx response whose body parsed as
JSON, following `twilioRequest`: if `errorData.message` is truthy the
composed `Code <code>: <message> (More info: <more_info>)` string,
otherwise the raw body text.  A `TypeError` from reading `.message` of
`null` is caught by the surrounding `try` and also falls back to the raw
text. -/
def composeError (j : JVal) (raw : String) : String :=
  match jsMember j "message" with
  | none => raw
  | some m =>
    if jsTruthy m then
      "Code " ++ jsToStr (jsGetD j "code") ++ ": " ++ jsToStr m
        ++ " (More info: " ++ jsToStr (jsGetD j "more_info") ++ ")"
    else raw

/-- The response classifier of `twilioRequest`: on `response.ok`, the body
is parsed as JSON (a parse failure propagates as an error); otherwise the
raw body text is read, the error-descriptor parse is attempted, and the
composed or raw error message is thrown. -/
def handleResponse (resp : HttpResponse) : Except String JVal :=
  if resp.isOk then
    match parseJson resp.body with
    | some j => Except.ok j
    | none => Except.error (jsonParseErrorMessage resp.body)
  else
    Except.error
      (match parseJson resp.body with
        | some j => composeError j resp.body
        | none => resp.body)

/-- The full `twilioRequest` pipeline over a network oracle `net` standing
for `fetch` (an `Except.error` from `net` is a rejected fetch, rethrown
as-is by the source). -/
def twilioRequest (cfg : TwilioConfig) (endpoint : String)
    (method : HttpMethod) (body : List (String × ParamValue))
    (net : HttpRequest → Except String HttpResponse) : Except String JVal :=
  match prepareRequest cfg endpoint method body with
  | Except.error e => Except.error e
  | Except.ok req =>
    match net req with
    | Except.error e => Except.error e
    | Except.ok resp => handleResponse resp

/-! ## The `send_message` tool handler -/

/-- The result returned to the host: the single text block and the
`isError` flag (absent in the source's success payload, modelled as
`false`). -/
structure ToolResult where
  text : String
  isError : Bool
deriving DecidableEq

/-- The five unconditional lines of the success summary. -/
def baseLines (resp : JVal) : List String :=
  ["Message sent successfully!",
    "SID: " ++ jsToStr (jsGetD resp "sid"),
    "Status: " ++ jsToStr (jsGetD resp "status"),
    "To: " ++ jsToStr (jsGetD resp "to"),
    "From: " ++ jsToStr (jsGetD resp "from")]

/-- The success formatter of the `send_message` handler: the five summary
lines, plus an `Error:` line exactly when `response.error_message` is
truthy. -/
def formatSuccessLines (resp : JVal) : List String :=
  if jsTruthy (jsGetD resp "error_message") then
    baseLines resp ++ ["Error: " ++ jsToStr (jsGetD resp "error_message")]
  else baseLines resp

/-- The uniform error conversion of the handler's `catch` block. -/
def toolErrorResult (msg : String) : ToolResult :=
  ⟨"Error sending message: " ++ msg, true⟩

/-- The `send_message` tool handler: the accountSid truthiness check, the
`twilioRequest` call, the success formatting (a `null` response value
would throw a `TypeError` on reading `.sid`, caught by the handler's
`catch`), and the terminal `catch` converting any thrown error into the
uniform `Error sending message:` result. -/
def sendMessageHandler (cfg : TwilioConfig)
    (params : List (String × ParamValue))
    (net : HttpRequest → Except String HttpResponse) : ToolResult :=
  if falsyStr cfg.accountSid then
    toolErrorResult "Server configuration for Twilio is missing."
  else
    match twilioRequest cfg
        ("/Accounts/" ++ cfg.accountSid.getD "" ++ "/Messages.json")
        HttpMethod.POST params net with
    | Except.error e => toolErrorResult e
    | Except.ok JVal.jnull => toolErrorResult (nullReadMessage "sid")
    | Except.ok resp =>
      ⟨String.intercalate "\n" (formatSuccessLines resp), false⟩

/-! ## Claim theorems -/

/-- C1: for every invocation of `twilioRequest` whose configuration has an
absent or empty `apiKey` or `apiSecret`, the function throws the
configuration error before any HTTP request is issued: the pre-network
stage already fails, and the result is the configuration error regardless
of the network oracle. -/
theorem claim1_missing_secret_rejects_before_network
    (cfg : TwilioConfig) (endpoint : String) (method : HttpMethod)
    (body : List (String × ParamValue))
    (h : falsyStr cfg.apiKey = true ∨ falsyStr cfg.apiSecret = true) :
    prepareRequest cfg endpoint method body
      = Except.error "Server configuration for Twilio is missing." ∧
    ∀ net, twilioRequest cfg endpoint method body net
      = Except.error "Server configuration for Twilio is missing." := by
  have hb : (falsyStr cfg.apiKey || falsyStr cfg.apiSecret) = true := by
    rcases h with h | h <;> simp [h]
  constructor
  · rw [prepareRequest, if_pos hb]
  · intro net
    rw [twilioRequest, prepareRequest, if_pos hb]

/-- C1 witness: a configuration with an empty `apiKey` is rejected with the
configuration error even though the network oracle would answer 200. -/
theorem claim1_witness :
    (falsyStr (⟨some "AC1", some "", some "SECRET"⟩ : TwilioConfig).apiKey = true ∨
      falsyStr (⟨some "AC1", some "", some "SECRET"⟩ : TwilioConfig).apiSecret = true) ∧
    twilioRequest ⟨some "AC1", some "", some "SECRET"⟩
        "/Accounts/AC1/Messages.json" HttpMethod.POST []
        (fun _ => Except.ok ⟨200, "OK", "1"⟩)
      = Except.error "Server configuration for Twilio is missing." :=
  ⟨Or.inl (by decide),
    (claim1_missing_secret_rejects_before_network
      ⟨some "AC1", some "", some "SECRET"⟩ "/Accounts/AC1/Messages.json"
      HttpMethod.POST [] (Or.inl (by decide))).2
      (fun _ => Except.ok ⟨200, "OK", "1"⟩)⟩

/-- C2: a list-valued field with N elements produces exactly N fields under
that key in the form body, one per element, in order (keys of a JavaScript
object are duplicate-free, hence the `Nodup` hypothesis). -/
theorem claim2_list_field_one_pair_per_element
    (body : List (String × ParamValue)) (k : String) (xs : List String)
    (hnd : (body.map Prod.fst).Nodup)
    (hmem : (k, ParamValue.plist xs) ∈ body) :
    countKey k (bodyPairs body) = xs.length ∧
    collectKey k (bodyPairs body) = xs := by
  have h := collectKey_bodyPairs_eq k xs body hnd hmem
  exact ⟨by rw [countKey, h], h⟩

/-- C2 witness: a three-element `MediaUrl` list yields exactly three
`MediaUrl` fields, in order. -/
theorem claim2_witness :
    countKey "MediaUrl"
        (bodyPairs [("To", ParamValue.pstr "+15551234567"),
          ("MediaUrl", ParamValue.plist ["http://a", "http://b", "http://c"])])
      = 3 ∧
    collectKey "MediaUrl"
        (bodyPairs [("To", ParamValue.pstr "+15551234567"),
          ("MediaUrl", ParamValue.plist ["http://a", "http://b", "http://c"])])
      = ["http://a", "http://b", "http://c"] :=
  claim2_list_field_one_pair_per_element
    [("To", ParamValue.pstr "+15551234567"),
      ("MediaUrl", ParamValue.plist ["http://a", "http://b", "http://c"])]
    "MediaUrl" ["http://a", "http://b", "http://c"] (by decide) (by decide)

/-- C3: a key whose value is `null` or `undefined` is omitted: the form
body contains no field under that key. -/
theorem claim3_null_undefined_key_omitted
    (body : List (String × ParamValue)) (k : String) (v : ParamValue)
    (hnd : (body.map Prod.fst).Nodup)
    (hmem : (k, v) ∈ body)
    (hv : v = ParamValue.pnull ∨ v = ParamValue.pundefined) :
    countKey k (bodyPairs body) = 0 := by
  rw [countKey, collectKey_bodyPairs_dropped k v body hnd hmem hv]
  rfl

/-- C3 witness: a `null`-valued `StatusCallback` contributes no field. -/
theorem claim3_witness :
    countKey "StatusCallback"
        (bodyPairs [("To", ParamValue.pstr "+15551234567"),
          ("StatusCallback", ParamValue.pnull),
          ("Body", ParamValue.pstr "hi")])
      = 0 :=
  claim3_null_undefined_key_omitted
    [("To", ParamValue.pstr "+15551234567"),
      ("StatusCallback", ParamValue.pnull), ("Body", ParamValue.pstr "hi")]
    "StatusCallback" ParamValue.pnull (by decide) (by decide) (Or.inl rfl)

/-- The non-2xx response of claim C4's counterexample: a parsable error
descriptor whose `message` field is present but empty. -/
def c4BadBody : String :=
  "\x7b\"code\":1,\"message\":\"\",\"more_info\":\"x\",\"status\":400\x7d"

/-- The counterexample response for C4. -/
def c4BadResp : HttpResponse := ⟨400, "Bad Request", c4BadBody⟩

/-- C4 counterexample: the claim as stated fails.  For a non-2xx response
whose body parses as an error descriptor with a present (but empty)
`message` field, the code tests truthiness, falls back to the raw body
text, and does not build the composed `Code <code>: <message> (More info:
<more_info>)` string. -/
theorem claim4_counterexample :
    handleResponse c4BadResp = Except.error c4BadBody ∧
    c4BadBody ≠ "Code 1:  (More info: x)" :=
  ⟨rfl, by decide⟩

/-- C4 (amended): for every non-2xx response whose body parses as a JSON
error descriptor with a numeric `code`, a string `more_info` and a
NON-EMPTY `message`, the thrown error text is exactly the composed
`Code <code>: <message> (More info: <more_info>)`. -/
theorem claim4_amended_nonempty_message_composed
    (resp : HttpResponse) (j : JVal) (code : Int) (msg info : String)
    (hok : resp.isOk = false)
    (hp : parseJson resp.body = some j)
    (hm : jsMember j "message" = some (some (JVal.jstr msg)))
    (hne : msg ≠ "")
    (hc : jsGetD j "code" = some (JVal.jnum code))
    (hi : jsGetD j "more_info" = some (JVal.jstr info)) :
    handleResponse resp
      = Except.error ("Code " ++ intToJsStr code ++ ": " ++ msg
          ++ " (More info: " ++ info ++ ")") := by
  rw [handleResponse]
  simp only [hok, Bool.false_eq_true, if_false, hp]
  rw [composeError, hm]
  have ht : jsTruthy (some (JVal.jstr msg)) = true := by
    rw [jsTruthy, if_neg hne]
  simp only [ht, if_true, hc, hi]
  rfl

/-- The exact error body named by claim C4. -/
def c4Msg : String := "Invalid " ++ apos ++ "To" ++ apos ++ " Phone Number"

/-- The exact response body named by claim C4. -/
def c4Body : String :=
  "\x7b\"code\":21211,\"message\":\"Invalid " ++ apos ++ "To" ++ apos
    ++ " Phone Number\",\"more_info\":\"https://www.twilio.com/docs/errors/21211\",\"status\":400\x7d"

/-- The parsed descriptor of `c4Body`. -/
def c4Json : JVal :=
  JVal.jobj [("code", JVal.jnum 21211), ("message", JVal.jstr c4Msg),
    ("more_info", JVal.jstr "https://www.twilio.com/docs/errors/21211"),
    ("status", JVal.jnum 400)]

/-- C4 witness: the particular body named by the claim produces exactly the
composed error string. -/
theorem claim4_witness :
    parseJson c4Body = some c4Json ∧
    handleResponse ⟨400, "Bad Request", c4Body⟩
      = Except.error ("Code " ++ intToJsStr 21211 ++ ": " ++ c4Msg
          ++ " (More info: " ++ "https://www.twilio.com/docs/errors/21211" ++ ")") :=
  ⟨rfl,
    claim4_amended_nonempty_message_composed ⟨400, "Bad Request", c4Body⟩
      c4Json 21211 c4Msg "https://www.twilio.com/docs/errors/21211"
      rfl rfl rfl (by decide) rfl rfl⟩

/-- C5: for every non-2xx response whose body fails to parse as JSON, the
thrown error text is the raw response text verbatim. -/
theorem claim5_nonjson_error_body_raw (resp : HttpResponse)
    (hok : resp.isOk = false) (hp : parseJson resp.body = none) :
    handleResponse resp = Except.error resp.body := by
  rw [handleResponse]
  simp only [hok, Bool.false_eq_true, if_false, hp]

/-- C5 witness: the body `Internal Server Error` named by the claim is not
JSON and comes back verbatim. -/
theorem claim5_witness :
    ((⟨500, "Internal Server Error", "Internal Server Error"⟩ : HttpResponse).isOk
        = false) ∧
    parseJson "Internal Server Error" = none ∧
    handleResponse ⟨500, "Internal Server Error", "Internal Server Error"⟩
      = Except.error "Internal Server Error" :=
  ⟨rfl, rfl,
    claim5_nonjson_error_body_raw
      ⟨500, "Internal Server Error", "Internal Server Error"⟩ rfl rfl⟩

/-- The 2xx message resource named by claim C6, without `error_message`. -/
def c6Resp : JVal :=
  JVal.jobj [("sid", JVal.jstr "SM1"), ("status", JVal.jstr "queued"),
    ("to", JVal.jstr "+15551234567"), ("from", JVal.jstr "+15559876543")]

/-- The same resource with `error_message` set to `Carrier rejected`. -/
def c6RespErr : JVal :=
  JVal.jobj [("sid", JVal.jstr "SM1"), ("status", JVal.jstr "queued"),
    ("to", JVal.jstr "+15551234567"), ("from", JVal.jstr "+15559876543"),
    ("error_message", JVal.jstr "Carrier rejected")]

/-- C6 counterexample: the claim as stated fails.  The success summary for
the resource named by the claim has five lines (success line, SID, status,
recipient, sender), not four; with `error_message` present the `Error:`
line is the sixth line, not the fifth (the fifth is the sender line). -/
theorem claim6_counterexample :
    (formatSuccessLines c6Resp).length = 5 ∧
    ¬((formatSuccessLines c6Resp).length = 4) ∧
    (formatSuccessLines c6RespErr).get? 4 = some "From: +15559876543" ∧
    (formatSuccessLines c6RespErr).length = 6 :=
  ⟨rfl, by decide, rfl, rfl⟩

/-- The JSON body whose parse is `c6RespErr`. -/
def c6BodyErr : String :=
  "\x7b\"sid\":\"SM1\",\"status\":\"queued\",\"to\":\"+15551234567\",\"from\":\"+15559876543\",\"error_message\":\"Carrier rejected\"\x7d"

/-- C6 (amended): for every 2xx message resource without an
`error_message` field the formatter produces the five-line success summary
(success line, SID, status, recipient, sender) and nothing more; for every
resource whose `error_message` is `Carrier rejected` it appends exactly
the sixth line `Error: Carrier rejected`; and for every well-configured
invocation whose 2xx response body parses to such a resource the handler
keeps the success framing, returning the joined summary lines with the
error flag unset. -/
theorem claim6_amended_five_line_summary (r : JVal) :
    (jsGetD r "error_message" = none →
      formatSuccessLines r = baseLines r ∧ (formatSuccessLines r).length = 5) ∧
    (jsGetD r "error_message" = some (JVal.jstr "Carrier rejected") →
      formatSuccessLines r = baseLines r ++ ["Error: Carrier rejected"] ∧
        (formatSuccessLines r).length = 6) ∧
    (∀ (cfg : TwilioConfig) (params : List (String × ParamValue))
        (resp : HttpResponse),
      falsyStr cfg.accountSid = false →
      falsyStr cfg.apiKey = false →
      falsyStr cfg.apiSecret = false →
      resp.isOk = true →
      parseJson resp.body = some r →
      r ≠ JVal.jnull →
      sendMessageHandler cfg params (fun _ => Except.ok resp)
        = ⟨String.intercalate "\n" (formatSuccessLines r), false⟩) := by
  refine ⟨?_, ?_, ?_⟩
  · intro h
    have hb : formatSuccessLines r = baseLines r := by
      rw [formatSuccessLines, h]
      rfl
    exact ⟨hb, by rw [hb]; rfl⟩
  · intro h
    have hb : formatSuccessLines r
        = baseLines r ++ ["Error: Carrier rejected"] := by
      rw [formatSuccessLines, h]
      rfl
    exact ⟨hb, by rw [hb]; rfl⟩
  · intro cfg params resp hacc hkey hsec hok hp hnn
    have hhr : handleResponse resp = Except.ok r := by
      rw [handleResponse]
      simp only [hok, if_true, hp]
    rw [sendMessageHandler, if_neg (by simp [hacc]), twilioRequest]
    cases hpr : prepareRequest cfg
        ("/Accounts/" ++ cfg.accountSid.getD "" ++ "/Messages.json")
        HttpMethod.POST params with
    | error e =>
      rw [prepareRequest, if_neg (by simp [hkey, hsec])] at hpr
      exact Except.noConfusion hpr
    | ok req =>
      cases r with
      | jnull => exact absurd rfl hnn
      | jbool b => simp only [hhr]
      | jnum n => simp only [hhr]
      | jstr s => simp only [hhr]
      | jarr xs => simp only [hhr]
      | jobj fs => simp only [hhr]


/-- C6 witness: the resource named by the claim gets the five-line summary
with no error line; with `error_message` set to `Carrier rejected` the
sixth line is appended and the handler run on the corresponding 2xx body
keeps the success framing. -/
theorem claim6_witness :
    jsGetD c6Resp "error_message" = none ∧
    formatSuccessLines c6Resp
      = ["Message sent successfully!", "SID: SM1", "Status: queued",
          "To: +15551234567", "From: +15559876543"] ∧
    jsGetD c6RespErr "error_message" = some (JVal.jstr "Carrier rejected") ∧
    formatSuccessLines c6RespErr
      = ["Message sent successfully!", "SID: SM1", "Status: queued",
          "To: +15551234567", "From: +15559876543", "Error: Carrier rejected"] ∧
    parseJson c6BodyErr = some c6RespErr ∧
    sendMessageHandler ⟨some "AC1", some "KEY", some "SECRET"⟩ []
        (fun _ => Except.ok ⟨201, "Created", c6BodyErr⟩)
      = ⟨"Message sent successfully!\nSID: SM1\nStatus: queued\nTo: +15551234567\nFrom: +15559876543\nError: Carrier rejected",
          false⟩ := by
  refine ⟨rfl, ?_, rfl, ?_, rfl, ?_⟩
  · have h := ((claim6_amended_five_line_summary c6Resp).1 rfl).1
    rw [h]
    rfl
  · have h := ((claim6_amended_five_line_summary c6RespErr).2.1 rfl).1
    rw [h]
    rfl
  · have h := (claim6_amended_five_line_summary c6RespErr).2.2
      ⟨some "AC1", some "KEY", some "SECRET"⟩ [] ⟨201, "Created", c6BodyErr⟩
      rfl rfl rfl rfl rfl (fun hh => JVal.noConfusion hh)
    rw [h]
    rfl

/-- C7: for every 2xx response whose body fails to parse as JSON, the parse
failure propagates as an error from `twilioRequest` and the tool
invocation ends in the error outcome, never in the success summary. -/
theorem claim7_malformed_success_body_is_error
    (cfg : TwilioConfig) (params : List (String × ParamValue))
    (resp : HttpResponse)
    (hok : resp.isOk = true) (hp : parseJson resp.body = none) :
    handleResponse resp = Except.error (jsonParseErrorMessage resp.body) ∧
    (sendMessageHandler cfg params (fun _ => Except.ok resp)).isError = true := by
  have h1 : handleResponse resp = Except.error (jsonParseErrorMessage resp.body) := by
    rw [handleResponse]
    simp only [hok, if_true, hp]
  refine ⟨h1, ?_⟩
  rw [sendMessageHandler]
  by_cases hacc : falsyStr cfg.accountSid
  · rw [if_pos hacc]
    rfl
  · rw [if_neg hacc, twilioRequest]
    cases hpr : prepareRequest cfg
        ("/Accounts/" ++ cfg.accountSid.getD "" ++ "/Messages.json")
        HttpMethod.POST params with
    | error e => rfl
    | ok req =>
      simp only [h1]
      rfl

/-- C7 witness: a 200 response whose body is `not json` ends in the error
outcome. -/
theorem claim7_witness :
    handleResponse ⟨200, "OK", "not json"⟩
      = Except.error (jsonParseErrorMessage "not json") ∧
    (sendMessageHandler ⟨some "AC1", some "KEY", some "SECRET"⟩ []
        (fun _ => Except.ok ⟨200, "OK", "not json"⟩)).isError = true :=
  claim7_malformed_success_body_is_error
    ⟨some "AC1", some "KEY", some "SECRET"⟩ [] ⟨200, "OK", "not json"⟩
    rfl rfl

/-- The network oracle for claim C8's counterexample: a non-2xx response
whose raw body spans two lines. -/
def c8Net : HttpRequest → Except String HttpResponse :=
  fun _ => Except.ok ⟨500, "Internal Server Error", "Internal\nServer Error"⟩

/-- C8 counterexample: the claim as stated fails.  A provider error whose
raw (non-JSON) body contains a newline flows into the result verbatim, so
the error text is not a single line, although it is prefixed and flagged. -/
theorem claim8_counterexample :
    (sendMessageHandler ⟨some "AC1", some "KEY", some "SECRET"⟩ [] c8Net).isError
      = true ∧
    (sendMessageHandler ⟨some "AC1", some "KEY", some "SECRET"⟩ [] c8Net).text
      = "Error sending message: Internal\nServer Error" ∧
    '\n' ∈ (sendMessageHandler ⟨some "AC1", some "KEY", some "SECRET"⟩ []
        c8Net).text.data :=
  ⟨rfl, rfl, by decide⟩

/-- C8 (amended): the conversion is total and uniform, and its text is
bound to the raised error's message.  The conversion itself never alters a
message: for every error message `e` the converted result has the error
flag set and the text `Error sending message: ` followed by `e` exactly,
single-line precisely when `e` is.  And every invocation terminates in
exactly one of the enumerated outcomes — the configuration error raised by
the accountSid check, the error raised by `twilioRequest` (configuration,
provider, transport or malformed-response), the `TypeError` raised on a
`null` resource — each converted into `toolErrorResult` of that very
error's message — or the success outcome with the flag unset; so no error
propagates uncaught to the host. -/
theorem claim8_amended_uniform_error_conversion
    (cfg : TwilioConfig) (params : List (String × ParamValue))
    (net : HttpRequest → Except String HttpResponse) :
    (∀ e : String, (toolErrorResult e).isError = true ∧
      (toolErrorResult e).text = "Error sending message: " ++ e ∧
      ('\n' ∈ (toolErrorResult e).text.data ↔ '\n' ∈ e.data)) ∧
    ((falsyStr cfg.accountSid = true ∧
        sendMessageHandler cfg params net
          = toolErrorResult "Server configuration for Twilio is missing.") ∨
      (∃ e, twilioRequest cfg
          ("/Accounts/" ++ cfg.accountSid.getD "" ++ "/Messages.json")
          HttpMethod.POST params net = Except.error e ∧
        sendMessageHandler cfg params net = toolErrorResult e) ∨
      (twilioRequest cfg
          ("/Accounts/" ++ cfg.accountSid.getD "" ++ "/Messages.json")
          HttpMethod.POST params net = Except.ok JVal.jnull ∧
        sendMessageHandler cfg params net
          = toolErrorResult (nullReadMessage "sid")) ∨
      (∃ j, j ≠ JVal.jnull ∧
        twilioRequest cfg
          ("/Accounts/" ++ cfg.accountSid.getD "" ++ "/Messages.json")
          HttpMethod.POST params net = Except.ok j ∧
        sendMessageHandler cfg params net
          = ⟨String.intercalate "\n" (formatSuccessLines j), false⟩)) := by
  constructor
  · intro e
    refine ⟨rfl, rfl, ?_⟩
    show '\n' ∈ ("Error sending message: " ++ e).data ↔ '\n' ∈ e.data
    rw [String.data_append]
    constructor
    · intro h
      rcases List.mem_append.mp h with h | h
      · exact absurd h (by decide)
      · exact h
    · intro h
      exact List.mem_append.mpr (Or.inr h)
  · by_cases hacc : falsyStr cfg.accountSid
    · refine Or.inl ⟨hacc, ?_⟩
      rw [sendMessageHandler, if_pos hacc]
    · rw [sendMessageHandler, if_neg hacc]
      cases htw : twilioRequest cfg
          ("/Accounts/" ++ cfg.accountSid.getD "" ++ "/Messages.json")
          HttpMethod.POST params net with
      | error e => exact Or.inr (Or.inl ⟨e, rfl, rfl⟩)
      | ok j =>
        cases j with
        | jnull => exact Or.inr (Or.inr (Or.inl ⟨rfl, rfl⟩))
        | jbool b =>
          exact Or.inr (Or.inr (Or.inr
            ⟨JVal.jbool b, fun hh => JVal.noConfusion hh, rfl, rfl⟩))
        | jnum n =>
          exact Or.inr (Or.inr (Or.inr
            ⟨JVal.jnum n, fun hh => JVal.noConfusion hh, rfl, rfl⟩))
        | jstr s =>
          exact Or.inr (Or.inr (Or.inr
            ⟨JVal.jstr s, fun hh => JVal.noConfusion hh, rfl, rfl⟩))
        | jarr xs =>
          exact Or.inr (Or.inr (Or.inr
            ⟨JVal.jarr xs, fun hh => JVal.noConfusion hh, rfl, rfl⟩))
        | jobj fs =>
          exact Or.inr (Or.inr (Or.inr
            ⟨JVal.jobj fs, fun hh => JVal.noConfusion hh, rfl, rfl⟩))

/-- C9: encoding a parameter mapping to a form body and decoding that body
reconstructs the field list exactly, and collecting the repeated keys of a
list-valued field yields the original elements in order. -/
theorem claim9_encode_decode_roundtrip
    (body : List (String × ParamValue)) (k : String) (xs : List String)
    (hnd : (body.map Prod.fst).Nodup)
    (hmem : (k, ParamValue.plist xs) ∈ body) :
    parseForm (serializeForm (bodyPairs body)) = some (bodyPairs body) ∧
    (parseForm (serializeForm (bodyPairs body))).map (collectKey k)
      = some xs := by
  have h1 := parseForm_serializeForm (bodyPairs body)
  have h2 := collectKey_bodyPairs_eq k xs body hnd hmem
  refine ⟨h1, ?_⟩
  rw [h1, Option.map_some', h2]

/-- C9 witness: a mapping with a two-element `MediaUrl` list (URLs needing
percent-escaping) and a scalar field round-trips with order preserved. -/
theorem claim9_witness :
    parseForm (serializeForm (bodyPairs
        [("To", ParamValue.pstr "+15551234567"),
          ("MediaUrl", ParamValue.plist ["http://a/x", "http://b/y"])]))
      = some (bodyPairs
        [("To", ParamValue.pstr "+15551234567"),
          ("MediaUrl", ParamValue.plist ["http://a/x", "http://b/y"])]) ∧
    (parseForm (serializeForm (bodyPairs
        [("To", ParamValue.pstr "+15551234567"),
          ("MediaUrl", ParamValue.plist ["http://a/x", "http://b/y"])]))).map
        (collectKey "MediaUrl")
      = some ["http://a/x", "http://b/y"] :=
  claim9_encode_decode_roundtrip
    [("To", ParamValue.pstr "+15551234567"),
      ("MediaUrl", ParamValue.plist ["http://a/x", "http://b/y"])]
    "MediaUrl" ["http://a/x", "http://b/y"] (by decide) (by decide)

/-- C10: for a 2xx message resource whose `error_message` is typed as in
the source (`string | null`, possibly absent), the formatter emits the
`Error:` line if and only if the field is a non-empty string: the code
tests truthiness, so an empty string or an explicit `null` yields no error
line. -/
theorem claim10_error_line_iff_truthy (r : JVal)
    (h : jsGetD r "error_message" = none ∨
      jsGetD r "error_message" = some JVal.jnull ∨
      ∃ s, jsGetD r "error_message" = some (JVal.jstr s)) :
    (formatSuccessLines r
        = baseLines r ++ ["Error: " ++ jsToStr (jsGetD r "error_message")])
      ↔ ∃ s, jsGetD r "error_message" = some (JVal.jstr s) ∧ s ≠ "" := by
  constructor
  · intro hf
    rcases h with h | h | ⟨s, h⟩
    · rw [formatSuccessLines, h] at hf
      simp only [jsTruthy, Bool.false_eq_true, if_false] at hf
      have := congrArg List.length hf
      simp [baseLines] at this
    · rw [formatSuccessLines, h] at hf
      simp only [jsTruthy, Bool.false_eq_true, if_false] at hf
      have := congrArg List.length hf
      simp [baseLines] at this
    · by_cases hs : s = ""
      · subst hs
        rw [formatSuccessLines, h] at hf
        simp only [jsTruthy, if_pos rfl, Bool.false_eq_true, if_false] at hf
        have := congrArg List.length hf
        simp [baseLines] at this
      · exact ⟨s, h, hs⟩
  · rintro ⟨s, hs, hne⟩
    rw [formatSuccessLines, hs]
    have ht : jsTruthy (some (JVal.jstr s)) = true := by
      rw [jsTruthy, if_neg hne]
    rw [ht]
    simp

/-- C10 witness: a resource whose `error_message` is present but empty
satisfies the typing hypothesis, and the equivalence specializes to it (in
particular no error line is emitted there). -/
theorem claim10_witness :
    (formatSuccessLines (JVal.jobj [("sid", JVal.jstr "SM2"),
          ("error_message", JVal.jstr "")])
        = baseLines (JVal.jobj [("sid", JVal.jstr "SM2"),
            ("error_message", JVal.jstr "")])
          ++ ["Error: " ++ jsToStr (jsGetD (JVal.jobj [("sid", JVal.jstr "SM2"),
              ("error_message", JVal.jstr "")]) "error_message")])
      ↔ ∃ s, jsGetD (JVal.jobj [("sid", JVal.jstr "SM2"),
          ("error_message", JVal.jstr "")]) "error_message"
            = some (JVal.jstr s) ∧ s ≠ "" :=
  claim10_error_line_iff_truthy
    (JVal.jobj [("sid", JVal.jstr "SM2"), ("error_message", JVal.jstr "")])
    (Or.inr (Or.inr ⟨"", rfl⟩))
